import Mathlib

/-!
Shallow embedding of the resolution-browser core (src/app.py) in Lean 4.

The embedding covers the pieces the spec claims talk about:
the identifier-list parser `clean_id_list`, the record normalizer and
classifier `get_ministry_code`, the era bucket `Shelf`, the
metadata / reverse-link index builder inside `load_data`, the canonical
sort of the table, and the query paths of the routes (free-text search,
per-year listing, single-record backward trace).

Python strings are modelled as Lean `String`; the character-level helpers
below reimplement the Python primitives used by the code (`str.strip`,
`str.upper`, `str.lower`, `re.split` on the class `[,;]`, and the `in`
substring test) by structural recursion on the underlying character list,
so that every definition evaluates inside the kernel.

A pandas cell that may be missing or NaN is modelled as an `Option`;
`none` plays the role of NaN / absent, matching `pd.isna` and `row.get`.
-/

namespace GbcApp

/-- Python str.strip: drop leading and trailing whitespace characters. -/
def trimChars (cs : List Char) : List Char :=
  ((cs.dropWhile Char.isWhitespace).reverse.dropWhile Char.isWhitespace).reverse

/-- String version of `trimChars`, modelling Python str.strip. -/
def strStrip (s : String) : String :=
  ⟨trimChars s.data⟩

/-- Python str.upper restricted to the ASCII range used by the data. -/
def strUpper (s : String) : String :=
  ⟨s.data.map Char.toUpper⟩

/-- Python str.lower restricted to the ASCII range used by the data. -/
def strLower (s : String) : String :=
  ⟨s.data.map Char.toLower⟩

/-- Delimiter class of the regex [,;] in clean_id_list. -/
def isDelim (c : Char) : Bool :=
  c = ',' || c = ';'

/-- Python re.split on the class [,;]: cut the character list at every
delimiter, keeping empty fields, as re.split does. -/
def splitDelims (cs : List Char) : List (List Char) :=
  match cs with
  | [] => [[]]
  | c :: rest =>
    if isDelim c then
      [] :: splitDelims rest
    else
      match splitDelims rest with
      | [] => [[c]]
      | t :: ts => (c :: t) :: ts

/-- String fields produced by splitting on [,;]. -/
def strSplitDelims (s : String) : List String :=
  (splitDelims s.data).map (fun cs => ⟨cs⟩)

/-- Python substring test pat in s, on character lists. -/
def subChars (pat : List Char) : List Char → Bool
  | [] => pat.isEmpty
  | c :: rest => pat.isPrefixOf (c :: rest) || subChars pat rest

/-- Python substring test pat in s, on strings. -/
def strSub (pat s : String) : Bool :=
  subChars pat.data s.data

/-- Case-insensitive substring test, modelling pandas
Series.str.contains(q, case=False) on a plain (non-regex-special) query. -/
def ciSub (pat s : String) : Bool :=
  strSub (strLower pat) (strLower s)

/-- Embedding of clean_id_list (src/app.py lines 38-42).  The argument is
the raw cell: `none` models a missing column / NaN value, `some s` a string
cell.  NaN or whitespace-only input gives []; otherwise the string is split
on commas and semicolons, every token stripped, and empty tokens dropped. -/
def clean_id_list : Option String → List String
  | none => []
  | some s =>
    if strStrip s = "" then []
    else ((strSplitDelims s).map strStrip).filter (fun t => t ≠ "")

/-- Keys of CATEGORY_MAP (src/app.py lines 14-21), the closed code set. -/
def CATEGORY_CODES : List String :=
  ["ADM", "FIN", "GUR", "ZON", "EDU", "LAW"]

/-- One raw row of the source spreadsheet, as the Python code reads it.
String-typed fields model str(value) of a present cell (row.get with a
default makes an absent cell behave as the empty string, which the model
reproduces by storing that default); Option-typed fields model cells that
the code probes with pd.isna or row.get without a default. `year` is the
result of pd.to_numeric(..., errors=coerce): `none` models NaN. -/
structure RawRow where
  resolution_id : String
  year : Option Int
  section_ministry : String
  category : String
  title : String
  full_text : String
  status : String
  date_passed : Option String
  amends_ids : Option String
  repeals_ids : Option String
  superseded_by : Option String
deriving DecidableEq, Repr

/-- The parsed spreadsheet.  `statusPresent` records whether the Status
column exists at all: df[Status] raises KeyError when it is absent,
which aborts the whole load (src/app.py line 81 inside the try block). -/
structure RawTable where
  statusPresent : Bool
  rows : List RawRow
deriving DecidableEq, Repr

/-- The concatenated classification text of src/app.py line 70: the
uppercased Section_Ministry value, the Category, the Resolution_ID and the
Title, space-separated and uppercased as a whole. -/
def classText (row : RawRow) : String :=
  strUpper (strUpper row.section_ministry ++ " " ++ row.category ++ " " ++
    row.resolution_id ++ " " ++ row.title)

/-- Embedding of get_ministry_code (src/app.py lines 64-76): trust an
explicit Section_Ministry value that uppercases to a known code, otherwise
scan the concatenated classification text for keyword groups in priority
order LAW, FIN, EDU, GUR, ZON, falling back to ADM. -/
def get_ministry_code (row : RawRow) : String :=
  let code := strUpper row.section_ministry
  if code ∈ CATEGORY_CODES then code
  else
    let text := classText row
    if strSub "LAW" text || strSub "LEGAL" text then "LAW"
    else if strSub "FIN" text || strSub "BUDGET" text then "FIN"
    else if strSub "EDU" text || strSub "ACADEMIC" text then "EDU"
    else if strSub "GUR" text || strSub "INITIATION" text then "GUR"
    else if strSub "ZON" text then "ZON"
    else "ADM"

/-- The nine keywords of the cascade, in the order the code tests them. -/
def KEYWORDS : List String :=
  ["LAW", "LEGAL", "FIN", "BUDGET", "EDU", "ACADEMIC", "GUR", "INITIATION", "ZON"]

/-- No keyword group of the cascade fires on the text of a row. -/
def noKeywordMatch (row : RawRow) : Prop :=
  ∀ k ∈ KEYWORDS, strSub k (classText row) = false

instance (row : RawRow) : Decidable (noKeywordMatch row) := by
  unfold noKeywordMatch; infer_instance

/-- Embedding of the Shelf column (src/app.py line 80): the decade label
f-string of int(y // 10 * 10) followed by the letter s.  Python // is floor
division, hence Int.fdiv. -/
def shelfOf (y : Int) : String :=
  toString (Int.fdiv y 10 * 10) ++ "s"

/-- One normalized record, i.e. one row of the dataframe after the
cleaning block of load_data (src/app.py lines 60-81).  Raw link cells are
carried along unresolved, as the dataframe keeps its original columns. -/
structure Rec where
  resolution_id : String
  year : Int
  title : String
  full_text : String
  chapter_code : String
  shelf : String
  is_active : Bool
  amends_ids : Option String
  repeals_ids : Option String
  superseded_by : Option String
deriving DecidableEq, Repr

/-- Normalization of one raw row: Year coerced with fillna(0), the
classifier and Shelf columns computed, Is_Active from a case-insensitive
comparison of Status with the word active (src/app.py lines 61, 78-81). -/
def normalizeRow (row : RawRow) : Rec :=
  { resolution_id := row.resolution_id
    year := row.year.getD 0
    title := row.title
    full_text := row.full_text
    chapter_code := get_ministry_code row
    shelf := shelfOf (row.year.getD 0)
    is_active := strLower row.status = "active"
    amends_ids := row.amends_ids
    repeals_ids := row.repeals_ids
    superseded_by := row.superseded_by }

/-- Sort key of df.sort_values([Year, Resolution_ID]) (src/app.py line
117): ascending by Year, ties broken ascending by Resolution_ID. -/
def recLE (a b : Rec) : Prop :=
  a.year < b.year ∨ (a.year = b.year ∧ a.resolution_id ≤ b.resolution_id)

instance : DecidableRel recLE := fun a b => by
  unfold recLE; infer_instance

/-- The table sort of load_data line 117, as an insertion sort on the
same key. -/
def sortRecords (rs : List Rec) : List Rec :=
  List.insertionSort recLE rs

/-- A dynamically-typed Python value, for the dict fields that hold either
a string or an integer depending on the data. -/
inductive PyVal where
  | s (v : String)
  | i (v : Int)
deriving DecidableEq, Repr

/-- One value of RESOLUTION_META (src/app.py lines 88-92). -/
structure MetaV where
  year : Int
  date : String
  title : String
deriving DecidableEq, Repr

/-- One entry of REVERSE_LINKS (src/app.py lines 100-105 and 110-115). -/
structure RevEntry where
  type : String
  source_id : String
  date : PyVal
  year : Int
deriving DecidableEq, Repr

/-- Python dict assignment d[k] = v on an association list: replace the
binding when the key exists, append it otherwise. -/
def metaPut (m : List (String × MetaV)) (k : String) (v : MetaV) :
    List (String × MetaV) :=
  match m with
  | [] => [(k, v)]
  | (k₀, v₀) :: rest =>
    if k₀ = k then (k, v) :: rest else (k₀, v₀) :: metaPut rest k v

/-- Python RESOLUTION_META.get(k): the bound value, if any. -/
def metaFind (m : List (String × MetaV)) (k : String) : Option MetaV :=
  match m with
  | [] => none
  | (k₀, v₀) :: rest => if k₀ = k then some v₀ else metaFind rest k

/-- The idiom at src/app.py lines 99-100 and 109-110: create an empty list
for an unseen key, then append the entry to the list bound to the key. -/
def revAdd (m : List (String × List RevEntry)) (k : String) (e : RevEntry) :
    List (String × List RevEntry) :=
  match m with
  | [] => [(k, [e])]
  | (k₀, es) :: rest =>
    if k₀ = k then (k, es ++ [e]) :: rest else (k₀, es) :: revAdd rest k e

/-- Python: REVERSE_LINKS[k] when k is present, [] otherwise, matching the
guarded access of src/app.py lines 181-183. -/
def revLookup (m : List (String × List RevEntry)) (k : String) :
    List RevEntry :=
  match m with
  | [] => []
  | (k₀, es) :: rest => if k₀ = k then es else revLookup rest k

/-- The date stored in a reverse link: row.get(Date_Passed, row[Year])
without str(), so a string when the column has a value and the integer
year otherwise (src/app.py lines 103, 113). -/
def rowDate (row : RawRow) : PyVal :=
  match row.date_passed with
  | some d => PyVal.s d
  | none => PyVal.i (row.year.getD 0)

/-- The AMENDED BY entry recorded against every target that a row amends
(src/app.py lines 100-105). -/
def amendEntry (row : RawRow) : RevEntry :=
  { type := "AMENDED BY"
    source_id := strStrip row.resolution_id
    date := rowDate row
    year := row.year.getD 0 }

/-- The REPEALED BY entry recorded against every target that a row repeals
(src/app.py lines 110-115). -/
def repealEntry (row : RawRow) : RevEntry :=
  { type := "REPEALED BY"
    source_id := strStrip row.resolution_id
    date := rowDate row
    year := row.year.getD 0 }

/-- Processing of one row by the index loop: one reverse entry per target
id in Amends_IDs, then one per target id in Repeals_IDs (src/app.py lines
97-115). -/
def rowRevStep (m : List (String × List RevEntry)) (row : RawRow) :
    List (String × List RevEntry) :=
  let m₁ := (clean_id_list row.amends_ids).foldl
    (fun acc t => revAdd acc t (amendEntry row)) m
  (clean_id_list row.repeals_ids).foldl
    (fun acc t => revAdd acc t (repealEntry row)) m₁

/-- REVERSE_LINKS after the index loop has scanned every row in order. -/
def buildRev (rows : List RawRow) : List (String × List RevEntry) :=
  rows.foldl rowRevStep []

/-- RESOLUTION_META after the index loop: one entry per row under the
stripped id, last write winning (src/app.py lines 85-92). -/
def buildMeta (rows : List RawRow) : List (String × MetaV) :=
  rows.foldl
    (fun m row =>
      metaPut m (strStrip row.resolution_id)
        { year := row.year.getD 0
          date := match row.date_passed with
            | some d => d
            | none => toString (row.year.getD 0)
          title := row.title })
    []

/-- The process-wide state: the sorted dataframe DF plus the two global
index maps (src/app.py lines 34-36, 123). -/
structure EngineState where
  df : List Rec
  meta : List (String × MetaV)
  rev : List (String × List RevEntry)
deriving DecidableEq, Repr

/-- The state holding an empty dataframe and cleared maps. -/
def EngineState.empty : EngineState :=
  { df := [], meta := [], rev := [] }

/-- The successful tail of load_data: normalize and classify every row,
build both index maps by scanning rows in order, and return the table
sorted by Year then Resolution_ID. -/
def buildState (rows : List RawRow) : EngineState :=
  { df := sortRecords (rows.map normalizeRow)
    meta := buildMeta rows
    rev := buildRev rows }

/-- What the load run finds: no source file, a file whose parse raises, or
a parsed table. -/
inductive LoadOutcome where
  | noFile
  | parseError
  | parsed (t : RawTable)
deriving DecidableEq, Repr

/-- Embedding of load_data (src/app.py lines 44-121).  The function resets
both global maps before doing anything (lines 45-47); when the folder has
no usable file it returns an empty dataframe (lines 50-52); when reading
or any later step raises, the except arm returns an empty dataframe (lines
119-121).  Accessing the Status column of a table that lacks it raises
KeyError at line 81, which lands in that same except arm. -/
def load_data (src : LoadOutcome) : EngineState :=
  match src with
  | LoadOutcome.noFile => EngineState.empty
  | LoadOutcome.parseError => EngineState.empty
  | LoadOutcome.parsed t =>
    if t.statusPresent then buildState t.rows else EngineState.empty

/-- A reload as the module performs it: DF, RESOLUTION_META and
REVERSE_LINKS are all rebound to what load_data produces; the previous
state is overwritten unconditionally and does not flow in. -/
def reload (_prev : EngineState) (src : LoadOutcome) : EngineState :=
  load_data src

/-- One object produced by resolve_links (src/app.py lines 128-139): the
target id, the relation label, and the year and date taken from the
forward metadata map, or the string Unknown for an id the map has never
seen. -/
structure FwdLink where
  id : String
  type : String
  year : PyVal
  date : PyVal
deriving DecidableEq, Repr

/-- Embedding of resolve_links: parse the raw cell and annotate every id
from RESOLUTION_META, with Unknown placeholders for ids outside it. -/
def resolve_links (meta : List (String × MetaV)) (cell : Option String)
    (rel : String) : List FwdLink :=
  (clean_id_list cell).map (fun rid =>
    match metaFind meta rid with
    | some mv =>
      { id := rid, type := rel, year := PyVal.i mv.year, date := PyVal.s mv.date }
    | none =>
      { id := rid, type := rel, year := PyVal.s "Unknown", date := PyVal.s "Unknown" })

/-- An element of a trace list: the Python code concatenates dicts of two
shapes into one list, the resolve_links objects keyed by id and the
reverse-map entries keyed by source_id. -/
def TraceE : Type := FwdLink ⊕ RevEntry

instance : DecidableEq TraceE := by
  unfold TraceE; infer_instance

/-- The backward half of the trace computed by page_view for a given url
id (src/app.py lines 169-183): find the first dataframe row whose
Resolution_ID equals the id (iloc[0]; IndexError when none, modelled as
none), resolve its Superseded_By cell forward-style, then append the
computed reverse links stored under the url id. -/
def page_backward (st : EngineState) (res_id : String) :
    Option (List TraceE) :=
  match st.df.find? (fun r => r.resolution_id = res_id) with
  | none => none
  | some res =>
    some ((resolve_links st.meta res.superseded_by "SUPERSEDED BY").map Sum.inl
      ++ (revLookup st.rev res_id).map Sum.inr)

/-- The result list of the index route (src/app.py lines 143-147): for a
present, non-empty query on a non-empty table, the rows whose Full_Text
or Resolution_ID contains the query case-insensitively; otherwise the
empty list. -/
def index_results (q : Option String) (df : List Rec) : List Rec :=
  match q with
  | none => []
  | some qs =>
    if qs = "" then []
    else if df = [] then []
    else df.filter (fun r => ciSub qs r.full_text || ciSub qs r.resolution_id)

/-- The per-year listing of book_overview (src/app.py line 153): the rows
of the table whose Year equals the requested year, in table order. -/
def listByYear (df : List Rec) (y : Int) : List Rec :=
  df.filter (fun r => r.year = y)

instance : IsTotal Rec recLE :=
  ⟨fun a b => by
    unfold recLE
    rcases lt_trichotomy a.year b.year with h | h | h
    · exact Or.inl (Or.inl h)
    · rcases le_total a.resolution_id b.resolution_id with hs | hs
      · exact Or.inl (Or.inr ⟨h, hs⟩)
      · exact Or.inr (Or.inr ⟨h.symm, hs⟩)
    · exact Or.inr (Or.inl h)⟩

instance : IsTrans Rec recLE :=
  ⟨fun a b c hab hbc => by
    unfold recLE at hab hbc ⊢
    rcases hab with h₁ | ⟨h₁, hs₁⟩
    · rcases hbc with h₂ | ⟨h₂, hs₂⟩
      · exact Or.inl (h₁.trans h₂)
      · exact Or.inl (h₁.trans_eq h₂)
    · rcases hbc with h₂ | ⟨h₂, hs₂⟩
      · exact Or.inl (h₁.trans_lt h₂)
      · exact Or.inr ⟨h₁.trans h₂, hs₁.trans hs₂⟩⟩

/-- Ordering the spec describes for the table: year descending, ties
broken by id ascending. -/
def specOrderDesc (a b : Rec) : Prop :=
  b.year < a.year ∨ (a.year = b.year ∧ a.resolution_id ≤ b.resolution_id)

instance : DecidableRel specOrderDesc := fun a b => by
  unfold specOrderDesc; infer_instance

/-- Sample row with an explicit known ministry code. -/
def rowFin : RawRow :=
  ⟨"R9", some 1990, "FIN", "", "t", "", "active", none, none, none, none⟩

/-- Sample row whose text holds both a legal and a finance keyword. -/
def rowBoth : RawRow :=
  ⟨"R8", some 1991, "", "LEGAL BUDGET", "t", "", "active", none, none, none, none⟩

/-- Sample row whose text holds no cascade keyword. -/
def rowPlain : RawRow :=
  ⟨"X1", some 2000, "", "", "t", "", "active", none, none, none, none⟩

/-- Sample row with an unparseable year. -/
def rowNoYear : RawRow :=
  ⟨"R5", none, "", "", "t", "", "active", none, none, none, none⟩

/-- Rows identical up to Full_Text, one of them full of keywords. -/
def rowFT₁ : RawRow :=
  ⟨"R7", some 1992, "", "", "t", "secret budget law text", "active",
    none, none, none, none⟩

/-- Twin of the previous row with empty Full_Text. -/
def rowFT₂ : RawRow :=
  ⟨"R7", some 1992, "", "", "t", "", "active", none, none, none, none⟩

/-- A non-empty previously-served state. -/
def prevState : EngineState := buildState [rowFin]

/-- Sample row carried by a table that lacks the Status column. -/
def rowStat : RawRow :=
  ⟨"R6", some 1975, "", "", "t", "", "whatever", none, none, none, none⟩

/-- Sample table that does carry a Status column. -/
def tblStatus : RawTable := ⟨true, [rowFin]⟩

/-- Sample row whose query keyword appears in the title only. -/
def rowTitle : RawRow :=
  ⟨"R1", some 1974, "", "", "Budget Act", "irrelevant text", "active",
    none, none, none, none⟩

/-- Normalized form of the title-keyword row. -/
def recTitle : Rec := normalizeRow rowTitle

/-- The two-row end-to-end table of the spec: R2 of 1980 amends R1 of
1974. -/
def rowR1 : RawRow :=
  ⟨"R1", some 1974, "", "", "Budget Act", "", "active", none, some "", none, none⟩

/-- Second row of the end-to-end table. -/
def rowR2 : RawRow :=
  ⟨"R2", some 1980, "", "", "Amendment", "", "active", none, some "R1", none, none⟩

/-! ### Lemmas about the character-level helpers -/

theorem dropWhile_self (p : Char → Bool) (l : List Char) :
    (l.dropWhile p).dropWhile p = l.dropWhile p := by
  induction l with
  | nil => rfl
  | cons c rest ih =>
    by_cases h : p c <;> simp [List.dropWhile_cons, h, ih]

theorem dropWhile_head_false (p : Char → Bool) (l : List Char) :
    l.dropWhile p = [] ∨
      ∃ c t, l.dropWhile p = c :: t ∧ p c = false := by
  induction l with
  | nil => exact Or.inl rfl
  | cons c rest ih =>
    by_cases h : p c
    · simpa [List.dropWhile_cons, h] using ih
    · exact Or.inr ⟨c, rest, by simp [List.dropWhile_cons, h], by simp [h]⟩

theorem trimChars_idem (cs : List Char) :
    trimChars (trimChars cs) = trimChars cs := by
  unfold trimChars
  generalize hA : cs.dropWhile Char.isWhitespace = A
  rcases hT : (A.reverse.dropWhile Char.isWhitespace).reverse with _ | ⟨c, t⟩
  · simp
  · have hpre : A = (c :: t) ++ (A.reverse.takeWhile Char.isWhitespace).reverse := by
      conv_lhs => rw [← A.reverse_reverse,
        ← List.takeWhile_append_dropWhile (p := Char.isWhitespace) (l := A.reverse)]
      rw [List.reverse_append, hT]
    have hc : Char.isWhitespace c = false := by
      rcases dropWhile_head_false Char.isWhitespace cs with h | ⟨d, u, hdu, hd⟩
      · have hAnil : A = [] := hA.symm.trans h
        rw [hAnil] at hpre
        exact absurd hpre (by simp)
      · have hAdu : A = d :: u := hA.symm.trans hdu
        rw [hAdu, List.cons_append] at hpre
        injection hpre with h₁ h₂
        rw [← h₁]
        exact hd
    have h₁ : (c :: t).dropWhile Char.isWhitespace = c :: t := by
      simp [List.dropWhile_cons, hc]
    rw [h₁, ← hT, List.reverse_reverse, dropWhile_self, hT]

theorem strStrip_idem (s : String) : strStrip (strStrip s) = strStrip s := by
  show (⟨trimChars (⟨trimChars s.data⟩ : String).data⟩ : String) = ⟨trimChars s.data⟩
  rw [show (⟨trimChars s.data⟩ : String).data = trimChars s.data from rfl,
    trimChars_idem]

theorem trimChars_eq_nil_iff (cs : List Char) :
    trimChars cs = [] ↔ ∀ c ∈ cs, c.isWhitespace := by
  constructor
  · intro h c hc
    unfold trimChars at h
    rw [List.reverse_eq_nil_iff, List.dropWhile_eq_nil_iff] at h
    have hall : ∀ d ∈ cs.dropWhile Char.isWhitespace, Char.isWhitespace d := by
      intro d hd
      exact h d (by simpa using hd)
    have hsplit := List.takeWhile_append_dropWhile
      (p := Char.isWhitespace) (l := cs)
    rw [← hsplit] at hc
    rcases List.mem_append.mp hc with h₁ | h₂
    · exact List.mem_takeWhile_imp h₁
    · exact hall c h₂
  · intro h
    unfold trimChars
    have h₁ : cs.dropWhile Char.isWhitespace = [] :=
      List.dropWhile_eq_nil_iff.mpr h
    simp [h₁]

theorem strStrip_eq_empty_iff (s : String) :
    strStrip s = "" ↔ ∀ c ∈ s.data, c.isWhitespace := by
  rw [show ("" : String) = ⟨[]⟩ from rfl]
  unfold strStrip
  rw [String.ext_iff]
  exact trimChars_eq_nil_iff s.data

theorem splitDelims_ne_nil (cs : List Char) : splitDelims cs ≠ [] := by
  induction cs with
  | nil => simp [splitDelims]
  | cons c rest ih =>
    unfold splitDelims
    by_cases h : isDelim c
    · simp [h]
    · simp only [h]
      rcases hr : splitDelims rest with _ | ⟨t, ts⟩
      · exact absurd hr ih
      · simp

theorem mem_of_mem_splitDelims {cs : List Char} {t : List Char} {c : Char}
    (ht : t ∈ splitDelims cs) (hc : c ∈ t) : c ∈ cs := by
  induction cs generalizing t with
  | nil =>
    simp [splitDelims] at ht
    subst ht; cases hc
  | cons d rest ih =>
    unfold splitDelims at ht
    by_cases hd : isDelim d
    · simp only [hd, if_true] at ht
      rcases List.mem_cons.mp ht with h | h
      · subst h; cases hc
      · exact List.mem_cons_of_mem d (ih h hc)
    · simp only [hd, if_false] at ht
      rcases hr : splitDelims rest with _ | ⟨t₀, ts⟩
      · exact absurd hr (splitDelims_ne_nil rest)
      · rw [hr] at ht
        rcases List.mem_cons.mp ht with h | h
        · subst h
          rcases List.mem_cons.mp hc with h | h
          · exact h ▸ List.mem_cons_self d rest
          · exact List.mem_cons_of_mem d
              (ih (t := t₀) (hr ▸ List.mem_cons_self t₀ ts) h)
        · exact List.mem_cons_of_mem d (ih (hr ▸ List.mem_cons_of_mem t₀ h) hc)

/-! ### Claims -/

/-- C4: the identifier list parser maps null and whitespace-only input to
the empty list, produces only non-empty trimmed tokens, agrees with the
unguarded split-trim-filter pipeline on every input, parses the spec
example to [GBC-01, GBC-02, GBC-03], and preserves duplicates in order. -/
theorem clean_id_list_spec :
    clean_id_list none = [] ∧
    (∀ s, strStrip s = "" → clean_id_list (some s) = []) ∧
    (∀ s t, t ∈ clean_id_list (some s) → t ≠ "" ∧ strStrip t = t) ∧
    (∀ s, clean_id_list (some s) =
      ((strSplitDelims s).map strStrip).filter (fun t => t ≠ "")) ∧
    clean_id_list (some " GBC-01 , GBC-02;GBC-03 ") =
      ["GBC-01", "GBC-02", "GBC-03"] ∧
    clean_id_list (some "A,A;A") = ["A", "A", "A"] := by
  refine ⟨rfl, ?_, ?_, ?_, by decide, by decide⟩
  · intro s h
    simp only [clean_id_list, if_pos h]
  · intro s t ht
    simp only [clean_id_list] at ht
    by_cases h : strStrip s = ""
    · rw [if_pos h] at ht; cases ht
    · rw [if_neg h] at ht
      rw [List.mem_filter] at ht
      obtain ⟨hmem, hne⟩ := ht
      obtain ⟨x, hx, rfl⟩ := List.mem_map.mp hmem
      exact ⟨by simpa using hne, strStrip_idem x⟩
  · intro s
    simp only [clean_id_list]
    by_cases h : strStrip s = ""
    · rw [if_pos h]
      symm
      rw [List.filter_eq_nil_iff]
      intro t hmem
      obtain ⟨x, hx, rfl⟩ := List.mem_map.mp hmem
      simp only [strSplitDelims] at hx
      obtain ⟨tc, htc, rfl⟩ := List.mem_map.mp hx
      simp only [decide_eq_true_eq, ne_eq, not_not]
      rw [strStrip_eq_empty_iff]
      intro c hcmem
      exact (strStrip_eq_empty_iff s).mp h c (mem_of_mem_splitDelims htc hcmem)
    · rw [if_neg h]

/-- Witness for C4: the whitespace-only branch and the token-shape part of
the theorem, instantiated at concrete inputs. -/
theorem clean_id_list_spec_witness :
    clean_id_list (some "   ") = [] ∧
    ("R1" ≠ "" ∧ strStrip "R1" = "R1") :=
  ⟨clean_id_list_spec.2.1 "   " (by decide),
   clean_id_list_spec.2.2.1 "R1, R2" "R1" (by decide)⟩

/-- C3: an explicit Section_Ministry value that is a known code is trusted
outright, and otherwise a text that holds both a legal keyword and a
finance keyword classifies as LAW, because the LAW group is tested first. -/
theorem classifier_cascade (row : RawRow) :
    (row.section_ministry ∈ CATEGORY_CODES →
      get_ministry_code row = row.section_ministry) ∧
    (strUpper row.section_ministry ∉ CATEGORY_CODES →
      (strSub "LAW" (classText row) = true ∨
        strSub "LEGAL" (classText row) = true) →
      (strSub "FIN" (classText row) = true ∨
        strSub "BUDGET" (classText row) = true) →
      get_ministry_code row = "LAW") := by
  constructor
  · intro h
    have hu : strUpper row.section_ministry = row.section_ministry := by
      simp only [CATEGORY_CODES, List.mem_cons, List.not_mem_nil, or_false] at h
      rcases h with h | h | h | h | h | h <;> rw [h] <;> decide
    simp only [get_ministry_code]
    rw [hu, if_pos h]
  · intro hcode hlaw hfin
    have hcond : (strSub "LAW" (classText row) ||
        strSub "LEGAL" (classText row)) = true := by
      rcases hlaw with h | h <;> simp [h]
    simp only [get_ministry_code]
    rw [if_neg hcode, if_pos hcond]

/-- Witness for C3: an explicit FIN code is returned unchanged, and a
LEGAL BUDGET text classifies as LAW. -/
theorem classifier_cascade_witness :
    get_ministry_code rowFin = "FIN" ∧ get_ministry_code rowBoth = "LAW" :=
  ⟨(classifier_cascade rowFin).1 (by decide),
   (classifier_cascade rowBoth).2 (by decide) (by decide) (by decide)⟩

/-- C5: the classifier always lands in the closed six-code set, and when
the explicit field is no known code and no keyword group fires it returns
the fallback code ADM. -/
theorem classifier_total (row : RawRow) :
    get_ministry_code row ∈ CATEGORY_CODES ∧
    (strUpper row.section_ministry ∉ CATEGORY_CODES → noKeywordMatch row →
      get_ministry_code row = "ADM") := by
  constructor
  · simp only [get_ministry_code]
    split_ifs <;> first | assumption | decide
  · intro hcode hkw
    have hL := hkw "LAW" (by decide)
    have hLe := hkw "LEGAL" (by decide)
    have hF := hkw "FIN" (by decide)
    have hB := hkw "BUDGET" (by decide)
    have hE := hkw "EDU" (by decide)
    have hAc := hkw "ACADEMIC" (by decide)
    have hG := hkw "GUR" (by decide)
    have hI := hkw "INITIATION" (by decide)
    have hZ := hkw "ZON" (by decide)
    simp only [get_ministry_code]
    rw [if_neg hcode]
    simp [hL, hLe, hF, hB, hE, hAc, hG, hI, hZ]

/-- Witness for C5: a keyword-free row is classified and falls back to
ADM. -/
theorem classifier_total_witness :
    get_ministry_code rowPlain ∈ CATEGORY_CODES ∧
    get_ministry_code rowPlain = "ADM" :=
  ⟨(classifier_total rowPlain).1,
   (classifier_total rowPlain).2 (by decide) (by decide)⟩

/-- C10: the classifier reads only the Section_Ministry, Category,
Resolution_ID and Title fields, so two rows that agree on those four
fields receive the same code whatever their Full_Text is. -/
theorem classifier_noninterference (r₁ r₂ : RawRow)
    (h₁ : r₁.section_ministry = r₂.section_ministry)
    (h₂ : r₁.category = r₂.category)
    (h₃ : r₁.resolution_id = r₂.resolution_id)
    (h₄ : r₁.title = r₂.title) :
    get_ministry_code r₁ = get_ministry_code r₂ := by
  simp only [get_ministry_code, classText, h₁, h₂, h₃, h₄]

/-- Witness for C10: two rows differing only in Full_Text, one containing
classifier keywords there, classify identically. -/
theorem classifier_noninterference_witness :
    get_ministry_code rowFT₁ = get_ministry_code rowFT₂ :=
  classifier_noninterference rowFT₁ rowFT₂ rfl rfl rfl rfl

/-- C6 counterexample: a row with an unparseable year normalizes to year 0
and receives the era label 0s, not the sentinel unknown the claim names. -/
theorem era_unknown_counterexample :
    (normalizeRow rowNoYear).shelf = "0s" ∧
    (normalizeRow rowNoYear).shelf ≠ "unknown" := by
  decide

/-- C6 amended: the era label is the pure decade function of the
normalized year, floor(year/10)*10 rendered with a trailing s; a missing
or unparseable year normalizes to 0 and yields the label 0s. -/
theorem era_of_year (row : RawRow) :
    (normalizeRow row).shelf = shelfOf (row.year.getD 0) ∧
    (∀ y₁ y₂ : Int, Int.fdiv y₁ 10 = Int.fdiv y₂ 10 → shelfOf y₁ = shelfOf y₂) ∧
    (row.year = none → (normalizeRow row).shelf = "0s") := by
  refine ⟨rfl, ?_, ?_⟩
  · intro y₁ y₂ h
    unfold shelfOf
    rw [h]
  · intro h
    simp only [normalizeRow, h, Option.getD_none]
    decide

/-- Witness for C6: two years of the same decade share a label, and a
concrete year-free row gets the label 0s. -/
theorem era_of_year_witness :
    shelfOf 1974 = shelfOf 1971 ∧ (normalizeRow rowNoYear).shelf = "0s" :=
  ⟨(era_of_year rowNoYear).2.1 1974 1971 (by decide),
   (era_of_year rowNoYear).2.2 rfl⟩

/-- C1: a reload whose parse fails, and likewise one that finds no file,
ends in the empty state regardless of the previously served state; in
particular any non-empty previous state is destroyed, not preserved. -/
theorem failed_reload_clears (prev : EngineState) :
    reload prev LoadOutcome.parseError = EngineState.empty ∧
    reload prev LoadOutcome.noFile = EngineState.empty ∧
    (prev ≠ EngineState.empty → reload prev LoadOutcome.parseError ≠ prev) := by
  refine ⟨rfl, rfl, ?_⟩
  intro h hcontra
  exact h hcontra.symm

/-- Witness for C1: a concrete non-empty state is not preserved by a
failing reload. -/
theorem failed_reload_clears_witness :
    reload prevState LoadOutcome.parseError = EngineState.empty ∧
    reload prevState LoadOutcome.parseError ≠ prevState :=
  ⟨(failed_reload_clears prevState).1,
   (failed_reload_clears prevState).2.2 (by decide)⟩

/-- C9 counterexample: loading a one-row table without a Status column
produces the empty state; the row is not defaulted to active, the whole
load fails. -/
theorem status_absent_counterexample :
    (load_data (LoadOutcome.parsed ⟨false, [rowStat]⟩)).df = [] ∧
    ([rowStat] : List RawRow) ≠ [] := by
  decide

/-- C9 amended: a table without a Status column makes the whole load fail
to the empty state; when the column is present every row reaches the
table and is active exactly when its status value lowercases to active. -/
theorem status_normalization (t : RawTable) (row : RawRow) :
    (t.statusPresent = false → load_data (LoadOutcome.parsed t) = EngineState.empty) ∧
    (t.statusPresent = true → row ∈ t.rows →
      normalizeRow row ∈ (load_data (LoadOutcome.parsed t)).df ∧
      ((normalizeRow row).is_active = true ↔ strLower row.status = "active")) := by
  constructor
  · intro h
    simp [load_data, h]
  · intro h hmem
    constructor
    · simp only [load_data, h, if_true]
      simp only [buildState, sortRecords]
      rw [List.mem_insertionSort]
      exact List.mem_map_of_mem _ hmem
    · simp [normalizeRow]

/-- Witness for C9: the failing branch at a concrete column-free table and
the active-normalization at a concrete row. -/
theorem status_normalization_witness :
    load_data (LoadOutcome.parsed ⟨false, []⟩) = EngineState.empty ∧
    (normalizeRow rowFin ∈ (load_data (LoadOutcome.parsed tblStatus)).df ∧
      ((normalizeRow rowFin).is_active = true ↔ strLower rowFin.status = "active")) :=
  ⟨(status_normalization ⟨false, []⟩ rowStat).1 rfl,
   (status_normalization tblStatus rowFin).2 rfl (by decide)⟩

/-- C7 counterexample: a two-row table loads into a table NOT ordered by
year descending; the row of 1990 precedes the row of 1991. -/
theorem order_desc_counterexample :
    ¬ List.Sorted specOrderDesc ((buildState [rowFin, rowBoth]).df) := by
  decide

/-- C7 amended: the loaded table, and hence the per-year listing taken
from it, is ordered by year ascending and then by id ascending, the order
df.sort_values([Year, Resolution_ID]) actually produces. -/
theorem canonical_order (rows : List RawRow) (y : Int) :
    List.Sorted recLE ((buildState rows).df) ∧
    List.Sorted recLE (listByYear ((buildState rows).df) y) := by
  have h : List.Sorted recLE ((buildState rows).df) :=
    List.sorted_insertionSort recLE (rows.map normalizeRow)
  exact ⟨h, List.Pairwise.filter _ h⟩

/-- C8 counterexample: a record whose title alone holds the query is NOT
returned by the search, refuting the claim that a hit in any of id, title
or full text suffices; the code never searches Title. -/
theorem search_fields_counterexample :
    ¬ (recTitle ∈ index_results (some "Budget") [recTitle] ↔
      recTitle ∈ [recTitle] ∧
        (ciSub "Budget" recTitle.resolution_id = true ∨
          ciSub "Budget" recTitle.title = true ∨
          ciSub "Budget" recTitle.full_text = true)) := by
  decide

/-- C8 amended: for a non-empty query, a record is in the search results
exactly when the query is a case-insensitive substring of its full text or
of its id; the title is not searched. -/
theorem search_spec (q : String) (df : List Rec) (r : Rec) (hq : q ≠ "") :
    r ∈ index_results (some q) df ↔
      r ∈ df ∧ (ciSub q r.full_text = true ∨ ciSub q r.resolution_id = true) := by
  simp only [index_results]
  rw [if_neg hq]
  by_cases hdf : df = []
  · subst hdf
    simp
  · rw [if_neg hdf, List.mem_filter]
    simp [Bool.or_eq_true]

/-- Witness for C8: a full-text hit at a concrete record and query. -/
theorem search_spec_witness :
    recTitle ∈ index_results (some "irrelevant") [recTitle] ↔
      recTitle ∈ [recTitle] ∧
        (ciSub "irrelevant" recTitle.full_text = true ∨
          ciSub "irrelevant" recTitle.resolution_id = true) :=
  search_spec "irrelevant" [recTitle] recTitle (by decide)

/-! ### Lemmas about the reverse-link map -/

theorem revLookup_cons (k₀ : String) (es : List RevEntry)
    (rest : List (String × List RevEntry)) (k : String) :
    revLookup ((k₀, es) :: rest) k = if k₀ = k then es else revLookup rest k :=
  rfl

theorem mem_revLookup_revAdd_self (m : List (String × List RevEntry))
    (k : String) (e : RevEntry) : e ∈ revLookup (revAdd m k e) k := by
  induction m with
  | nil => simp [revAdd, revLookup]
  | cons p rest ih =>
    obtain ⟨k₀, es⟩ := p
    unfold revAdd
    by_cases h : k₀ = k
    · rw [if_pos h, revLookup_cons, if_pos rfl]
      exact List.mem_append_right _ (List.mem_singleton_self e)
    · rw [if_neg h, revLookup_cons, if_neg h]
      exact ih

theorem mem_revLookup_revAdd (m : List (String × List RevEntry))
    (k k₂ : String) (e e₂ : RevEntry) :
    e ∈ revLookup m k → e ∈ revLookup (revAdd m k₂ e₂) k := by
  induction m with
  | nil => intro h; simp [revLookup] at h
  | cons p rest ih =>
    obtain ⟨k₀, es⟩ := p
    intro h
    rw [revLookup_cons] at h
    unfold revAdd
    by_cases h₀ : k₀ = k₂
    · rw [if_pos h₀, revLookup_cons]
      by_cases hk : k₂ = k
      · rw [if_pos hk]
        rw [if_pos (h₀.trans hk)] at h
        exact List.mem_append_left _ h
      · rw [if_neg hk]
        rw [if_neg (fun hh => hk (h₀.symm.trans hh))] at h
        exact h
    · rw [if_neg h₀, revLookup_cons]
      by_cases hk : k₀ = k
      · rw [if_pos hk]
        rw [if_pos hk] at h
        exact h
      · rw [if_neg hk]
        rw [if_neg hk] at h
        exact ih h

theorem mem_revLookup_foldl (ts : List String) (ent : RevEntry)
    (k : String) (e : RevEntry) :
    ∀ m, e ∈ revLookup m k →
      e ∈ revLookup (ts.foldl (fun acc t => revAdd acc t ent) m) k := by
  induction ts with
  | nil => intro m h; exact h
  | cons t ts ih =>
    intro m h
    simp only [List.foldl_cons]
    exact ih _ (mem_revLookup_revAdd _ _ _ _ _ h)

theorem mem_revLookup_foldl_self (ts : List String) (ent : RevEntry)
    (b : String) :
    ∀ m, b ∈ ts →
      ent ∈ revLookup (ts.foldl (fun acc t => revAdd acc t ent) m) b := by
  induction ts with
  | nil => intro m hb; cases hb
  | cons t ts ih =>
    intro m hb
    simp only [List.foldl_cons]
    rcases List.mem_cons.mp hb with h | h
    · subst h
      exact mem_revLookup_foldl ts ent b ent _ (mem_revLookup_revAdd_self m b ent)
    · exact ih _ h

theorem mem_revLookup_rowRevStep (m : List (String × List RevEntry))
    (row : RawRow) (k : String) (e : RevEntry)
    (h : e ∈ revLookup m k) : e ∈ revLookup (rowRevStep m row) k := by
  simp only [rowRevStep]
  exact mem_revLookup_foldl _ _ _ _ _ (mem_revLookup_foldl _ _ _ _ _ h)

theorem mem_revLookup_foldl_rows (rows : List RawRow) (k : String)
    (e : RevEntry) :
    ∀ m, e ∈ revLookup m k → e ∈ revLookup (rows.foldl rowRevStep m) k := by
  induction rows with
  | nil => intro m h; exact h
  | cons row rows ih =>
    intro m h
    simp only [List.foldl_cons]
    exact ih _ (mem_revLookup_rowRevStep _ _ _ _ h)

theorem amend_mem_rowRevStep (m : List (String × List RevEntry))
    (row : RawRow) (b : String)
    (hb : b ∈ clean_id_list row.amends_ids) :
    amendEntry row ∈ revLookup (rowRevStep m row) b := by
  simp only [rowRevStep]
  exact mem_revLookup_foldl _ _ _ _ _
    (mem_revLookup_foldl_self _ _ _ _ hb)

theorem amend_mem_buildRev_aux (rows : List RawRow) (A : RawRow)
    (b : String) :
    ∀ m, A ∈ rows → b ∈ clean_id_list A.amends_ids →
      amendEntry A ∈ revLookup (rows.foldl rowRevStep m) b := by
  induction rows with
  | nil => intro m hA _; cases hA
  | cons row rows ih =>
    intro m hA hb
    simp only [List.foldl_cons]
    rcases List.mem_cons.mp hA with h | h
    · subst h
      exact mem_revLookup_foldl_rows rows b _ _ (amend_mem_rowRevStep m A b hb)
    · exact ih _ h hb

theorem amend_mem_buildRev (rows : List RawRow) (A : RawRow) (b : String)
    (hA : A ∈ rows) (hb : b ∈ clean_id_list A.amends_ids) :
    amendEntry A ∈ revLookup (buildRev rows) b :=
  amend_mem_buildRev_aux rows A b [] hA hb

/-- C2: if record A declares B among its amends targets, then the backward
trace of B holds a reverse entry of kind AMENDED BY whose source id is the
normalized (stripped) id of A. -/
theorem reverse_roundtrip (rows : List RawRow) (A B : RawRow)
    (hA : A ∈ rows) (hB : B ∈ rows)
    (hb : B.resolution_id ∈ clean_id_list A.amends_ids) :
    ∃ tr, page_backward (buildState rows) B.resolution_id = some tr ∧
      ∃ e : RevEntry, Sum.inr e ∈ tr ∧
        e.source_id = strStrip A.resolution_id ∧ e.type = "AMENDED BY" := by
  have hmem : normalizeRow B ∈ (buildState rows).df := by
    simp only [buildState, sortRecords]
    rw [List.mem_insertionSort]
    exact List.mem_map_of_mem _ hB
  have hsome : ((buildState rows).df.find?
      (fun r => r.resolution_id = B.resolution_id)).isSome := by
    rw [List.find?_isSome]
    exact ⟨normalizeRow B, hmem, by simp [normalizeRow]⟩
  obtain ⟨res, hres⟩ := Option.isSome_iff_exists.mp hsome
  refine ⟨(resolve_links (buildState rows).meta res.superseded_by
      "SUPERSEDED BY").map Sum.inl
    ++ (revLookup (buildState rows).rev B.resolution_id).map Sum.inr, ?_, ?_⟩
  · simp only [page_backward, hres]
  · refine ⟨amendEntry A, List.mem_append_right _ ?_, rfl, rfl⟩
    rw [List.mem_map]
    refine ⟨amendEntry A, ?_, rfl⟩
    show amendEntry A ∈ revLookup (buildRev rows) B.resolution_id
    exact amend_mem_buildRev rows A B.resolution_id hA hb

/-- Witness for C2: in the concrete two-row table, the backward trace of
R1 carries an AMENDED BY entry with source R2. -/
theorem reverse_roundtrip_witness :
    ∃ tr, page_backward (buildState [rowR1, rowR2]) rowR1.resolution_id = some tr ∧
      ∃ e : RevEntry, Sum.inr e ∈ tr ∧
        e.source_id = strStrip rowR2.resolution_id ∧ e.type = "AMENDED BY" :=
  reverse_roundtrip [rowR1, rowR2] rowR2 rowR1 (by decide) (by decide) (by decide)

end GbcApp
